import Mathlib

/-!
# Verification of the sandboxie client core (`sandboxie.py`)

A shallow embedding of the pure logic of `src/sandboxie.py`:

* the launcher command-line builder (`Sandboxie.start` and its thin wrappers),
* the pid output parser (`Sandboxie.running_processes`),
* the config layer (`get_config` / `_write_config` / `_modify_config` /
  `create_sandbox` / `destroy_sandbox`), over a line-level model of the
  Sandboxie.ini file.

External effects (actually spawning `Start.exe`, the utf-16-le byte encoding
of the config file, environment lookup at construction) are out of scope:
the embedding covers the argument lists handed to the subprocess call, the
text-to-data parsing, and the config state transformation on disk.
-/

set_option autoImplicit false

namespace SandboxiePy

/-! ## Characters and strings: Python primitives used by the source

The source uses `str.split()` (split on whitespace runs), `int(...)`
(string-to-integer conversion) and, inside `configparser`, `str.lower`
(the default `optionxform` applied to option keys).  We model them over
`String.data` (lists of characters), restricted to the ASCII behaviour
(the launcher output and config keys handled by the source are ASCII). -/

/-- The whitespace characters of Python's `str.split()` / `int()` stripping
(ASCII fragment: space, tab, newline, carriage return, vertical tab,
form feed). -/
def pyIsSpace (c : Char) : Bool :=
  c = ' ' || c = '\t' || c = '\n' || c = '\r' || c = Char.ofNat 11 || c = Char.ofNat 12

/-- ASCII `str.lower` on one character: map `A`-`Z` (codes 65-90) to
`a`-`z` (codes 97-122), leave everything else alone. -/
def charLower (c : Char) : Char :=
  if 65 ≤ c.toNat ∧ c.toNat ≤ 90 then Char.ofNat (c.toNat + 32) else c

/-- ASCII model of Python's `str.lower`. -/
def pyLower (s : String) : String :=
  ⟨s.data.map charLower⟩

/-- Accumulator pass of `str.split()`: `cur` holds the (reversed) current
run of non-whitespace characters. Whitespace runs separate tokens; no
empty tokens are produced. -/
def splitWsAux : List Char → List Char → List (List Char)
  | [], cur => if cur = [] then [] else [cur.reverse]
  | c :: cs, cur =>
      if pyIsSpace c then
        (if cur = [] then splitWsAux cs [] else cur.reverse :: splitWsAux cs [])
      else splitWsAux cs (c :: cur)

/-- Python `output.split()`: the whitespace-separated tokens of `s`,
in order, with no empty tokens. -/
def pySplit (s : String) : List String :=
  (splitWsAux s.data []).map (fun l => String.mk l)

/-- Digit-string validity after an initial digit: each later position is a
digit, or an underscore followed by a digit (Python 3 allows single
underscores *between* digits in `int(...)`). -/
def validUDigitsAux : List Char → Bool
  | [] => true
  | '_' :: [] => false
  | '_' :: c :: cs => c.isDigit && validUDigitsAux cs
  | c :: cs => c.isDigit && validUDigitsAux cs

/-- A valid unsigned digit part for `int(...)`: nonempty, starts and ends
with a digit, single underscores only between digits. -/
def validUDigits : List Char → Bool
  | [] => false
  | c :: cs => c.isDigit && validUDigitsAux cs

/-- Base-10 value of a digit list. -/
def digitsToNat (l : List Char) : Nat :=
  l.foldl (fun acc c => acc * 10 + (c.toNat - 48)) 0

/-- Parse the unsigned digit part of an `int(...)` literal. -/
def parseUDigits (l : List Char) : Option Nat :=
  if validUDigits l then some (digitsToNat (l.filter (fun c => c ≠ '_'))) else none

/-- Strip leading and trailing whitespace (as `int(...)` does before
parsing). -/
def stripWs (l : List Char) : List Char :=
  ((l.dropWhile pyIsSpace).reverse.dropWhile pyIsSpace).reverse

/-- Model of Python `int(token)` on a string: optional surrounding
whitespace, optional sign, then a nonempty digit string (ASCII digits,
with Python 3's underscore grouping); `none` models the `ValueError`
raised on any other input. -/
def pyInt (s : String) : Option Int :=
  match stripWs s.data with
  | '+' :: rest => (parseUDigits rest).map (fun n => (n : Int))
  | '-' :: rest => (parseUDigits rest).map (fun n => -(n : Int))
  | rest => (parseUDigits rest).map (fun n => (n : Int))

/-- Full consumption of the generator `(f x for x in l)` where `f` may
raise: the first failing element makes consumption fail (`none`), there
is no skipping. -/
def mapOption {α β : Type} (f : α → Option β) : List α → Option (List β)
  | [] => some []
  | a :: as =>
      match f a with
      | none => none
      | some b => (mapOption f as).map (fun bs => b :: bs)

/-! ## The command-line builder: `Sandboxie.start`

`start` builds `[start_exe] + options + [command]` for
`subprocess.check_output`.  The embedding `startArgs` is that token list;
the `Sandboxie` structure carries the two construction-time fields the
builder reads (`defaultbox`, `install_dir`). -/

/-- The construction-time state of a `Sandboxie` instance that the
command builder reads. -/
structure Sandboxie where
  defaultbox : String := "DefaultBox"
  install_dir : String := "C:\\Program Files\\Sandboxie"
  deriving DecidableEq

/-- The keyword flags of `Sandboxie.start`, with the source's defaults. -/
structure StartFlags where
  silent : Bool := true
  wait : Bool := false
  nosbiectrl : Bool := true
  elevate : Bool := false
  disable_forced : Bool := false
  reload : Bool := false
  terminate : Bool := false
  terminate_all : Bool := false
  listpids : Bool := false
  deriving DecidableEq

/-- Does the path end in a separator (or a drive colon)? -/
def lastIsSep (l : List Char) : Bool :=
  match l.getLast? with
  | some c => c = '\\' || c = '/' || c = ':'
  | none => false

/-- `os.path.join(a, b)` on Windows, for a relative, drive-less `b` (the
only use in the source is `os.path.join(self.install_dir, 'Start.exe')`):
empty `a` yields `b`; `a` ending in a separator (or a drive colon) is
concatenated directly; otherwise a backslash is inserted. -/
def ntJoin (a b : String) : String :=
  if a.data = [] then b
  else if lastIsSep a.data then a ++ b
  else a ++ "\\" ++ b

/-- Flag tokens from steps 1-6 of the builder (`/box:` plus the five
boolean-gated flags, in the source's append order). -/
def baseOptions (box : String) (f : StartFlags) : List String :=
  ["/box:" ++ box]
    ++ (if f.silent then ["/silent"] else [])
    ++ (if f.wait then ["/wait"] else [])
    ++ (if f.nosbiectrl then ["/nosbiectrl"] else [])
    ++ (if f.elevate then ["/elevate"] else [])
    ++ (if f.disable_forced then ["/dfp"] else [])

/-- Control-flag tokens from step 7 of the builder, appended only in the
`command is None` branch, in the source's append order. -/
def controlOptions (f : StartFlags) : List String :=
  (if f.reload then ["/reload"] else [])
    ++ (if f.terminate then ["/terminate"] else [])
    ++ (if f.terminate_all then ["/terminate_all"] else [])
    ++ (if f.listpids then ["/listpids"] else [])

/-- The four control-only tokens. -/
def controlTokens : List String :=
  ["/reload", "/terminate", "/terminate_all", "/listpids"]

/-- The argument list built by `Sandboxie.start`:

* `box = box or self.defaultbox` (the source tests `box is None`),
* options from steps 1-6 always;
* if `command is None`: the control flags of step 7, and `/listpids`
  additionally rebinds `command = '| more'`;
* `command = command or ''` (both `None` and `''` end as `''`);
* result `[start_exe] + options + [command]`. -/
def startArgs (sbx : Sandboxie) (command : Option String) (box : Option String)
    (f : StartFlags) : List String :=
  let boxName := box.getD sbx.defaultbox
  let start_exe := ntJoin sbx.install_dir "Start.exe"
  match command with
  | some c => [start_exe] ++ baseOptions boxName f ++ [c]
  | none =>
      [start_exe] ++ baseOptions boxName f ++ controlOptions f
        ++ [if f.listpids then "| more" else ""]

/-- `Sandboxie.delete_contents(box, **kwargs)`: delegates to
`start('delete_sandbox_silent', box=None, **kwargs)` — note the literal
`box=None` in the source: the `box` parameter is accepted and discarded. -/
def delete_contents (sbx : Sandboxie) (box : Option String) (f : StartFlags) :
    List String :=
  startArgs sbx (some "delete_sandbox_silent") none f

/-- The pid-yielding part of `Sandboxie.running_processes`: the generator
`(int(pid) for pid in output.split())` over the captured launcher output,
fully consumed.  `none` models the `ValueError` escaping on a non-numeric
token. -/
def running_processes (output : String) : Option (List Int) :=
  mapOption pyInt (pySplit output)

/-! ## The config layer

`get_config` parses `Sandboxie.ini` with `configparser.ConfigParser(strict=False)`,
`_write_config` serializes a parser instance back, `_modify_config` brackets a
read-modify-write transaction, and `create_sandbox` / `destroy_sandbox` are its
two users.

The on-disk file is modelled one physical line at a time (`Line`): a
`[section]` header, a `key = value` option line, or a blank line (the exact
byte encoding — utf-16-le — and the surrounding whitespace of the INI text
carry no information at this level).  A parsed config is an ordered list of
sections, each an ordered list of key-value pairs, as in `configparser`'s
ordered dicts; option keys go through `optionxform = str.lower` on every
read, duplicate section headers merge (`strict=False`), duplicate keys are
last-write-wins (dict assignment), and an option line before any header is
a parse error (`MissingSectionHeaderError`).  The `DEFAULT` section and
value interpolation are not exercised by the source and are left out. -/

/-- One section of a parsed config: ordered `key = value` pairs. -/
abbrev IniSection := List (String × String)

/-- A parsed config: ordered sections, each with its option pairs. -/
abbrev Config := List (String × IniSection)

/-- One physical line of the INI file. -/
inductive Line where
  | header (name : String)
  | kv (key val : String)
  | blank
  deriving DecidableEq

/-- Does a section named `n` exist? (`section in parser`). -/
def hasSection (c : Config) (n : String) : Bool :=
  c.any (fun s => s.1 = n)

/-- The stored option list of section `n`, if present. -/
def lookupSection (c : Config) (n : String) : Option IniSection :=
  (c.find? (fun s => s.1 = n)).map (fun s => s.2)

/-- Dict assignment `d[k] = v` on an ordered association list: an existing
key keeps its position and gets the new value, a new key is appended. -/
def upsert (s : IniSection) (k v : String) : IniSection :=
  if s.any (fun q => q.1 = k) then s.map (fun q => if q.1 = k then (k, v) else q)
  else s ++ [(k, v)]

/-- Set one option in the named section of a config. -/
def setKV (c : Config) (n k v : String) : Config :=
  c.map (fun sec => if sec.1 = n then (sec.1, upsert sec.2 k v) else sec)

/-- The parser loop: fold the lines into a config, tracking the current
section.  A repeated header re-enters the existing section (`strict=False`
merging); a `key = value` line lower-cases the key (`optionxform`) and
assigns it into the current section; a `key = value` line before any
header is a hard parse error. -/
def parseAux : List Line → Config → Option String → Option Config
  | [], acc, _ => some acc
  | Line.header n :: rest, acc, _ =>
      if hasSection acc n then parseAux rest acc (some n)
      else parseAux rest (acc ++ [(n, [])]) (some n)
  | Line.kv k v :: rest, acc, cur =>
      match cur with
      | none => none
      | some n => parseAux rest (setKV acc n (pyLower k) v) (some n)
  | Line.blank :: rest, acc, cur => parseAux rest acc cur

/-- `get_config` on a file content: parse the lines of `Sandboxie.ini`. -/
def parse (ls : List Line) : Option Config :=
  parseAux ls [] none

/-- `config.write(f)`: each section as its header line, one line per
option, then a blank line. -/
def writeConfig : Config → List Line
  | [] => []
  | (n, s) :: rest =>
      Line.header n :: (s.map (fun q => Line.kv q.1 q.2) ++ (Line.blank :: writeConfig rest))

/-- The observable filesystem state: the content of `Sandboxie.ini` at
`self.config_path`. -/
structure FS where
  disk : List Line
  deriving DecidableEq

/-- `Sandboxie.get_config`: parse the on-disk file. -/
def get_config (fs : FS) : Option Config :=
  parse fs.disk

/-- `Sandboxie._write_config(config)`: full-file replace of the on-disk
content by the serialization of `config`. -/
def write_config (fs : FS) (config : Config) : FS :=
  ⟨writeConfig config⟩

/-- Outcome of one `_modify_config` transaction: the initial `get_config`
may fail to parse, the caller's block may raise, or the block completes
and the config is written back. -/
inductive ModifyResult (ε : Type) where
  | parseError
  | blockError (e : ε)
  | ok
  deriving DecidableEq

/-- `Sandboxie._modify_config` as used in a `with` statement whose body is
`block`: read the config; run the body on it (which may raise `e : ε`, or
finish with the mutated config); only on normal completion of the body is
`_write_config` reached — the generator has no `try`/`finally` around its
`yield`, so an exception raised in the body propagates out of the context
manager before the write line runs. -/
def modify_config {ε : Type} (fs : FS) (block : Config → Except ε Config) :
    ModifyResult ε × FS :=
  match get_config fs with
  | none => (ModifyResult.parseError, fs)
  | some config =>
      match block config with
      | Except.error e => (ModifyResult.blockError e, fs)
      | Except.ok mutated => (ModifyResult.ok, write_config fs mutated)

/-- `read_dict`-ing a fresh `dict` of options into an (emptied) section:
keys are lower-cased by `optionxform` and assigned in order, later
duplicates overwriting earlier ones. -/
def normOpts (options : List (String × String)) : IniSection :=
  options.foldl (fun acc q => upsert acc (pyLower q.1) q.2) []

/-- `config[box] = options` (`ConfigParser.__setitem__`): an existing
section is cleared and refilled in place; a new section is appended at the
end. -/
def setSection (c : Config) (n : String) (options : List (String × String)) : Config :=
  if hasSection c n then
    c.map (fun sec => if sec.1 = n then (sec.1, normOpts options) else sec)
  else c ++ [(n, normOpts options)]

/-- `config.remove_section(box)`: drop the section if present and report
whether it existed; never an error. -/
def remove_section (c : Config) (n : String) : Config × Bool :=
  (c.filter (fun sec => sec.1 ≠ n), hasSection c n)

/-- `Sandboxie.create_sandbox(box, options)`: a `_modify_config`
transaction whose body is `config[box] = options`.  (The subsequent
`reload_config()` launcher call does not touch the file.) -/
def create_sandbox (fs : FS) (box : String) (options : List (String × String)) :
    ModifyResult Empty × FS :=
  modify_config fs (fun config => Except.ok (setSection config box options))

/-- `Sandboxie.destroy_sandbox(box)`: a `_modify_config` transaction whose
body is `config.remove_section(box)`.  (The subsequent `reload_config()`
launcher call does not touch the file.) -/
def destroy_sandbox (fs : FS) (box : String) : ModifyResult Empty × FS :=
  modify_config fs (fun config => Except.ok (remove_section config box).1)

/-- The stored option keys of a section. -/
def keysOf (s : IniSection) : List String :=
  s.map (fun q => q.1)

/-- The section names of a config. -/
def namesOf (c : Config) : List String :=
  c.map (fun s => s.1)

/-- Well-formedness of a stored section: keys are distinct and already
lower-cased — every section built by the parser or by `read_dict`
satisfies this. -/
def SectionWF (s : IniSection) : Prop :=
  (keysOf s).Nodup ∧ ∀ q ∈ s, pyLower q.1 = q.1

/-- Well-formedness of an in-memory config: distinct section names (the
data-model invariant) and well-formed sections. -/
def ConfigWF (c : Config) : Prop :=
  (namesOf c).Nodup ∧ ∀ p ∈ c, SectionWF p.2

instance (s : IniSection) : Decidable (SectionWF s) :=
  decidable_of_iff ((keysOf s).Nodup ∧ ∀ q ∈ s, pyLower q.1 = q.1) Iff.rfl

instance (c : Config) : Decidable (ConfigWF c) :=
  decidable_of_iff ((namesOf c).Nodup ∧ ∀ p ∈ c, SectionWF p.2) Iff.rfl

/-! ### Write/parse round trip

`writeConfig` followed by `parse` restores a well-formed config exactly:
the frame lemma behind the `create_sandbox` / `destroy_sandbox` claims. -/

theorem char_toNat_ofNat {n : Nat} (h : n.isValidChar) : (Char.ofNat n).toNat = n := by
  simp [Char.ofNat, h, Char.ofNatAux, Char.toNat, UInt32.toNat]

theorem charLower_idem (c : Char) : charLower (charLower c) = charLower c := by
  by_cases h : 65 ≤ c.toNat ∧ c.toNat ≤ 90
  · have hval : (c.toNat + 32).isValidChar := Or.inl (by omega)
    have hv : (Char.ofNat (c.toNat + 32)).toNat = c.toNat + 32 := char_toNat_ofNat hval
    unfold charLower
    rw [if_pos h, if_neg (by rw [hv]; omega)]
  · unfold charLower
    rw [if_neg h, if_neg h]

theorem pyLower_idem (s : String) : pyLower (pyLower s) = pyLower s :=
  congrArg String.mk (by
    show (s.data.map charLower).map charLower = s.data.map charLower
    rw [List.map_map]
    exact List.map_congr_left (fun a _ => charLower_idem a))

theorem hasSection_iff {c : Config} {n : String} :
    hasSection c n = true ↔ n ∈ namesOf c := by
  simp [hasSection, namesOf, List.any_eq_true, List.mem_map]

theorem upsert_not_mem {s : IniSection} {k : String} (v : String) (h : k ∉ keysOf s) :
    upsert s k v = s ++ [(k, v)] := by
  unfold upsert
  rw [if_neg]
  intro hany
  rw [List.any_eq_true] at hany
  obtain ⟨q, hq, he⟩ := hany
  exact h (of_decide_eq_true he ▸ List.mem_map_of_mem _ hq)

theorem setKV_append_last {pre : Config} {n : String} (done : IniSection)
    (k v : String) (hpre : ∀ q ∈ pre, q.1 ≠ n) :
    setKV (pre ++ [(n, done)]) n k v = pre ++ [(n, upsert done k v)] := by
  unfold setKV
  rw [List.map_append]
  congr 1
  · exact (List.map_congr_left (fun q hq => by simp [hpre q hq])).trans (List.map_id pre)
  · simp

theorem parseAux_kv_run (s : IniSection) (ls : List Line) (pre : Config)
    (n : String) (done : IniSection)
    (hpre : ∀ q ∈ pre, q.1 ≠ n)
    (hnd : (keysOf (done ++ s)).Nodup)
    (hlow : ∀ q ∈ s, pyLower q.1 = q.1) :
    parseAux (s.map (fun q => Line.kv q.1 q.2) ++ ls) (pre ++ [(n, done)]) (some n)
      = parseAux ls (pre ++ [(n, done ++ s)]) (some n) := by
  induction s generalizing done with
  | nil => simp
  | cons q s ih =>
      obtain ⟨k, v⟩ := q
      have hk : k ∉ keysOf done := by
        rw [keysOf, List.map_append] at hnd
        have := (List.nodup_append.mp hnd).2.2
        intro hmem
        exact this hmem (by simp [keysOf])
      rw [List.map_cons, List.cons_append]
      show parseAux (Line.kv k v :: _) _ _ = _
      rw [parseAux]
      rw [hlow (k, v) (by simp)]
      rw [setKV_append_last done k v hpre]
      rw [upsert_not_mem v hk]
      rw [ih (done ++ [(k, v)])
        (by simpa [keysOf, List.append_assoc] using hnd)
        (fun q hq => hlow q (by simp [hq]))]
      simp

theorem parseAux_writeConfig (c : Config) (acc : Config) (cur : Option String)
    (hnd : (namesOf (acc ++ c)).Nodup)
    (hw : ∀ p ∈ c, SectionWF p.2) :
    parseAux (writeConfig c) acc cur = some (acc ++ c) := by
  induction c generalizing acc cur with
  | nil => simp [writeConfig, parseAux]
  | cons p c ih =>
      obtain ⟨n, s⟩ := p
      have hnmem : n ∉ namesOf acc := by
        rw [namesOf, List.map_append] at hnd
        have := (List.nodup_append.mp hnd).2.2
        intro hmem
        exact this hmem (by simp [namesOf])
      rw [writeConfig]
      rw [parseAux]
      rw [if_neg (fun h => hnmem (hasSection_iff.mp h))]
      have hpre : ∀ q ∈ acc, q.1 ≠ n :=
        fun q hq he => hnmem (he ▸ List.mem_map_of_mem _ hq)
      have hs := hw (n, s) (by simp)
      rw [parseAux_kv_run s (Line.blank :: writeConfig c) acc n [] hpre
        (by simpa [keysOf] using hs.1) (fun q hq => hs.2 q hq)]
      rw [List.nil_append]
      rw [parseAux]
      rw [ih (acc ++ [(n, s)]) (some n)
        (by simpa [namesOf, List.append_assoc] using hnd)
        (fun p hp => hw p (by simp [hp]))]
      simp

/-- A well-formed config written with `config.write` and read back with
`get_config` is restored exactly. -/
theorem parse_writeConfig (c : Config) (h : ConfigWF c) :
    parse (writeConfig c) = some c := by
  have := parseAux_writeConfig c [] none (by simpa [namesOf] using h.1) h.2
  simpa [parse] using this

/-! ### Preservation of well-formedness and lookup/frame lemmas -/

theorem anyKey_iff {s : IniSection} {k : String} :
    (s.any fun q => q.1 = k) = true ↔ k ∈ keysOf s := by
  simp [keysOf, List.any_eq_true, List.mem_map]

theorem sectionWF_upsert {s : IniSection} (h : SectionWF s) (k v : String) :
    SectionWF (upsert s (pyLower k) v) := by
  have hlowk : pyLower (pyLower k) = pyLower k := pyLower_idem k
  by_cases hmem : pyLower k ∈ keysOf s
  · unfold upsert
    rw [if_pos (anyKey_iff.mpr hmem)]
    constructor
    · have hkeys : keysOf (s.map fun q => if q.1 = pyLower k then (pyLower k, v) else q)
          = keysOf s := by
        unfold keysOf
        rw [List.map_map]
        exact List.map_congr_left fun q _ => by
          by_cases hq : q.1 = pyLower k <;> simp [hq]
      rw [hkeys]
      exact h.1
    · intro q hq
      rw [List.mem_map] at hq
      obtain ⟨q0, hq0, rfl⟩ := hq
      by_cases hq0k : q0.1 = pyLower k
      · simp only [hq0k, if_pos]
        exact hlowk
      · rw [if_neg hq0k]
        exact h.2 q0 hq0
  · rw [upsert_not_mem v hmem]
    constructor
    · unfold keysOf
      rw [List.map_append]
      rw [List.nodup_append]
      exact ⟨h.1, by simp, by simpa [keysOf, List.disjoint_singleton] using hmem⟩
    · intro q hq
      rcases List.mem_append.mp hq with h1 | h1
      · exact h.2 q h1
      · rw [List.mem_singleton] at h1
        subst h1
        exact hlowk

theorem sectionWF_normOpts (options : List (String × String)) :
    SectionWF (normOpts options) := by
  suffices haux : ∀ (opts : List (String × String)) (acc : IniSection), SectionWF acc →
      SectionWF (opts.foldl (fun acc q => upsert acc (pyLower q.1) q.2) acc) by
    exact haux options [] ⟨List.nodup_nil, by simp⟩
  intro opts
  induction opts with
  | nil => exact fun acc h => h
  | cons q opts ih =>
      intro acc h
      exact ih (upsert acc (pyLower q.1) q.2) (sectionWF_upsert h q.1 q.2)

theorem configWF_setSection {c : Config} (h : ConfigWF c) (n : String)
    (options : List (String × String)) : ConfigWF (setSection c n options) := by
  unfold setSection
  by_cases hn : hasSection c n = true
  · rw [if_pos hn]
    constructor
    · have hnames : namesOf (c.map fun sec => if sec.1 = n then (sec.1, normOpts options) else sec)
          = namesOf c := by
        unfold namesOf
        rw [List.map_map]
        exact List.map_congr_left fun q _ => by
          by_cases hq : q.1 = n <;> simp [hq]
      rw [hnames]
      exact h.1
    · intro p hp
      rw [List.mem_map] at hp
      obtain ⟨p0, hp0, rfl⟩ := hp
      by_cases hp0n : p0.1 = n
      · simp only [hp0n, if_pos]
        exact sectionWF_normOpts options
      · rw [if_neg hp0n]
        exact h.2 p0 hp0
  · rw [if_neg hn]
    constructor
    · unfold namesOf
      rw [List.map_append, List.nodup_append]
      refine ⟨h.1, by simp, ?_⟩
      have : n ∉ namesOf c := fun hmem => hn (hasSection_iff.mpr hmem)
      simpa [namesOf, List.disjoint_singleton] using this
    · intro p hp
      rcases List.mem_append.mp hp with h1 | h1
      · exact h.2 p h1
      · rw [List.mem_singleton] at h1
        subst h1
        exact sectionWF_normOpts options

theorem configWF_remove {c : Config} (h : ConfigWF c) (n : String) :
    ConfigWF (remove_section c n).1 := by
  constructor
  · exact h.1.sublist (List.Sublist.map _ (List.filter_sublist c))
  · exact fun p hp => h.2 p (List.mem_of_mem_filter hp)

theorem namesOf_cons (q : String × IniSection) (c : Config) :
    namesOf (q :: c) = q.1 :: namesOf c := rfl

theorem lookupSection_cons (q : String × IniSection) (c : Config) (p : String) :
    lookupSection (q :: c) p = if q.1 = p then some q.2 else lookupSection c p := by
  by_cases h : q.1 = p
  · rw [if_pos h]
    unfold lookupSection
    rw [List.find?_cons_of_pos _ (by simpa using h)]
    rfl
  · rw [if_neg h]
    unfold lookupSection
    rw [List.find?_cons_of_neg _ (by simpa using h)]

theorem lookup_mapReplace {c : Config} {n : String} (o : IniSection)
    (hn : n ∈ namesOf c) :
    lookupSection (c.map fun sec => if sec.1 = n then (sec.1, o) else sec) n = some o := by
  induction c with
  | nil => simp [namesOf] at hn
  | cons p c ih =>
      rw [List.map_cons]
      by_cases hp : p.1 = n
      · rw [if_pos hp, lookupSection_cons]
        simp [hp]
      · rw [if_neg hp, lookupSection_cons, if_neg hp]
        apply ih
        rw [namesOf_cons] at hn
        rcases List.mem_cons.mp hn with h1 | h1
        · exact absurd h1.symm hp
        · exact h1

theorem lookup_append_new (c : Config) (n : String) (o : IniSection)
    (hn : n ∉ namesOf c) :
    lookupSection (c ++ [(n, o)]) n = some o := by
  induction c with
  | nil =>
      rw [List.nil_append, lookupSection_cons]
      simp
  | cons p c ih =>
      rw [namesOf_cons] at hn
      have hp : ¬ p.1 = n := fun he => hn (by rw [he]; exact List.mem_cons_self _ _)
      rw [List.cons_append, lookupSection_cons, if_neg hp]
      exact ih (fun hm => hn (List.mem_cons_of_mem _ hm))

theorem lookup_mapReplace_other {c : Config} {n p : String} (o : IniSection)
    (hp : p ≠ n) :
    lookupSection (c.map fun sec => if sec.1 = n then (sec.1, o) else sec) p
      = lookupSection c p := by
  induction c with
  | nil => rfl
  | cons q c ih =>
      rw [List.map_cons]
      by_cases hq : q.1 = n
      · have hqp : ¬ q.1 = p := fun he => hp (by rw [← he, hq])
        rw [if_pos hq, lookupSection_cons, lookupSection_cons, if_neg hqp, if_neg hqp]
        exact ih
      · rw [if_neg hq, lookupSection_cons, lookupSection_cons]
        by_cases hqp : q.1 = p
        · rw [if_pos hqp, if_pos hqp]
        · rw [if_neg hqp, if_neg hqp]
          exact ih

theorem lookup_append_other {c : Config} {n p : String} (o : IniSection)
    (hp : p ≠ n) :
    lookupSection (c ++ [(n, o)]) p = lookupSection c p := by
  induction c with
  | nil =>
      rw [List.nil_append, lookupSection_cons, if_neg (fun he : n = p => hp he.symm)]
  | cons q c ih =>
      rw [List.cons_append, lookupSection_cons, lookupSection_cons]
      by_cases hqp : q.1 = p
      · rw [if_pos hqp, if_pos hqp]
      · rw [if_neg hqp, if_neg hqp]
        exact ih

theorem lookupSection_setSection_self (c : Config) (n : String)
    (options : List (String × String)) :
    lookupSection (setSection c n options) n = some (normOpts options) := by
  unfold setSection
  by_cases hn : hasSection c n = true
  · rw [if_pos hn]
    exact lookup_mapReplace _ (hasSection_iff.mp hn)
  · rw [if_neg hn]
    exact lookup_append_new c n _ (fun hmem => hn (hasSection_iff.mpr hmem))

theorem lookupSection_setSection_other (c : Config) {n p : String}
    (options : List (String × String)) (hp : p ≠ n) :
    lookupSection (setSection c n options) p = lookupSection c p := by
  unfold setSection
  by_cases hn : hasSection c n = true
  · rw [if_pos hn]
    exact lookup_mapReplace_other _ hp
  · rw [if_neg hn]
    exact lookup_append_other _ hp

theorem lookup_remove_self (c : Config) (n : String) :
    lookupSection (remove_section c n).1 n = none := by
  unfold remove_section
  induction c with
  | nil => rfl
  | cons q c ih =>
      rw [List.filter_cons]
      by_cases hq : q.1 = n
      · rw [if_neg (by simp [hq])]
        exact ih
      · rw [if_pos (by simp [hq]), lookupSection_cons, if_neg hq]
        exact ih

theorem lookup_remove_other (c : Config) {n p : String} (hp : p ≠ n) :
    lookupSection (remove_section c n).1 p = lookupSection c p := by
  unfold remove_section
  induction c with
  | nil => rfl
  | cons q c ih =>
      rw [List.filter_cons]
      by_cases hq : q.1 = n
      · have hqp : ¬ q.1 = p := fun he => hp (by rw [← he, hq])
        rw [if_neg (by simp [hq])]
        rw [show lookupSection (q :: c) p = lookupSection c p from by
          rw [lookupSection_cons, if_neg hqp]]
        exact ih
      · rw [if_pos (by simp [hq]), lookupSection_cons, lookupSection_cons]
        by_cases hqp : q.1 = p
        · rw [if_pos hqp, if_pos hqp]
        · rw [if_neg hqp, if_neg hqp]
          exact ih

theorem remove_not_mem {c : Config} {n : String} (h : hasSection c n = false) :
    (remove_section c n).1 = c := by
  unfold remove_section
  apply List.filter_eq_self.mpr
  intro sec hsec
  have hne : sec.1 ≠ n := by
    intro he
    have htrue : hasSection c n = true :=
      hasSection_iff.mpr (he ▸ List.mem_map_of_mem _ hsec)
    rw [h] at htrue
    exact Bool.false_ne_true htrue
  simpa using hne

/-! ### Token-level lemmas about the command builder -/

/-- No string ending in `Start.exe` is a control token. -/
theorem append_startexe_not_control (a : String) :
    (a ++ "Start.exe") ∉ controlTokens := by
  intro hmem
  have hsfx : "Start.exe".data <:+ (a ++ "Start.exe").data := by
    rw [String.data_append]
    exact List.suffix_append a.data _
  rcases (by simpa [controlTokens] using hmem :
      a ++ "Start.exe" = "/reload" ∨ a ++ "Start.exe" = "/terminate" ∨
      a ++ "Start.exe" = "/terminate_all" ∨ a ++ "Start.exe" = "/listpids")
    with h | h | h | h
  all_goals rw [h] at hsfx
  all_goals exact absurd hsfx (by decide)

/-- The launcher path `os.path.join(install_dir, 'Start.exe')` is never a
control token, whatever the installation directory is. -/
theorem startExe_not_control (i : String) : ntJoin i "Start.exe" ∉ controlTokens := by
  unfold ntJoin
  by_cases h0 : i.data = []
  · rw [if_pos h0]
    decide
  · rw [if_neg h0]
    by_cases h1 : lastIsSep i.data = true
    · rw [if_pos h1]
      exact append_startexe_not_control i
    · rw [if_neg h1]
      exact append_startexe_not_control (i ++ "\\")

/-- No `/box:`-prefixed token is a control token, whatever the box name. -/
theorem boxToken_not_control (b : String) : ("/box:" ++ b) ∉ controlTokens := by
  intro hmem
  have hpre : "/box:".data <+: ("/box:" ++ b).data := by
    rw [String.data_append]
    exact List.prefix_append _ _
  rcases (by simpa [controlTokens] using hmem :
      "/box:" ++ b = "/reload" ∨ "/box:" ++ b = "/terminate" ∨
      "/box:" ++ b = "/terminate_all" ∨ "/box:" ++ b = "/listpids")
    with h | h | h | h
  all_goals rw [h] at hpre
  all_goals exact absurd hpre (by decide)

theorem mem_ite_singleton {t x : String} {c : Prop} [Decidable c]
    (h : t ∈ if c then [x] else ([] : List String)) : t = x := by
  by_cases hc : c
  · rw [if_pos hc] at h
    exact List.mem_singleton.mp h
  · rw [if_neg hc] at h
    exact absurd h (List.not_mem_nil t)

/-- None of the step 1-6 flag tokens is a control token. -/
theorem baseOptions_not_control (b : String) (f : StartFlags) :
    ∀ t ∈ baseOptions b f, t ∉ controlTokens := by
  intro t ht
  unfold baseOptions at ht
  rcases List.mem_append.mp ht with h | h
  rotate_left
  · rw [mem_ite_singleton h]
    decide
  rcases List.mem_append.mp h with h | h
  rotate_left
  · rw [mem_ite_singleton h]
    decide
  rcases List.mem_append.mp h with h | h
  rotate_left
  · rw [mem_ite_singleton h]
    decide
  rcases List.mem_append.mp h with h | h
  rotate_left
  · rw [mem_ite_singleton h]
    decide
  rcases List.mem_append.mp h with h | h
  rotate_left
  · rw [mem_ite_singleton h]
    decide
  rw [List.mem_singleton.mp h]
  exact boxToken_not_control b

/-! ### Lemmas about the pid generator -/

/-- If any element of the list fails `f`, full consumption fails. -/
theorem mapOption_eq_none {α β : Type} (f : α → Option β) {l : List α} {t : α}
    (ht : t ∈ l) (h : f t = none) : mapOption f l = none := by
  induction l with
  | nil => cases ht
  | cons a as ih =>
      rcases List.mem_cons.mp ht with rfl | hmem
      · unfold mapOption
        rw [h]
      · unfold mapOption
        cases hfa : f a
        · rfl
        · rw [ih hmem]
          rfl

/-- Every produced element comes from some input element. -/
theorem mapOption_mem {α β : Type} (f : α → Option β) {l : List α} {bs : List β}
    (h : mapOption f l = some bs) : ∀ b ∈ bs, ∃ a ∈ l, f a = some b := by
  induction l generalizing bs with
  | nil =>
      unfold mapOption at h
      cases h
      simp
  | cons a as ih =>
      unfold mapOption at h
      cases hfa : f a with
      | none =>
          rw [hfa] at h
          cases h
      | some b0 =>
          rw [hfa] at h
          cases hrec : mapOption f as with
          | none =>
              rw [hrec] at h
              cases h
          | some bs0 =>
              rw [hrec] at h
              have hbs : b0 :: bs0 = bs := by simpa using h
              subst hbs
              intro b hb
              rcases List.mem_cons.mp hb with rfl | hb
              · exact ⟨a, List.mem_cons_self a as, hfa⟩
              · obtain ⟨a1, ha1, hfa1⟩ := ih hrec b hb
                exact ⟨a1, List.mem_cons_of_mem a ha1, hfa1⟩

/-- A whitespace character is never an ASCII digit. -/
theorem space_not_digit {c : Char} (h : pyIsSpace c = true) : c.isDigit = false := by
  unfold pyIsSpace at h
  simp only [Bool.or_eq_true, decide_eq_true_eq] at h
  rcases h with ((((h | h) | h) | h) | h) | h
  all_goals subst h
  all_goals decide

/-- Stripping surrounding whitespace from a whitespace-free character list
is the identity. -/
theorem stripWs_of_no_space {l : List Char} (h : ∀ c ∈ l, pyIsSpace c = false) :
    stripWs l = l := by
  have h1 : ∀ (m : List Char), (∀ c ∈ m, pyIsSpace c = false) →
      m.dropWhile pyIsSpace = m := by
    intro m hm
    cases m with
    | nil => rfl
    | cons a as =>
        rw [List.dropWhile_cons, if_neg]
        simp [hm a (List.mem_cons_self a as)]
  unfold stripWs
  rw [h1 l h, h1 l.reverse (fun c hc => h c (List.mem_reverse.mp hc)), List.reverse_reverse]

/-- `int(token)` on an all-digit token yields a non-negative value. -/
theorem pyInt_digits_nonneg {t : String} {p : Int}
    (hd : t.data.all Char.isDigit = true) (h : pyInt t = some p) : 0 ≤ p := by
  have hno : ∀ c ∈ t.data, pyIsSpace c = false := by
    intro c hc
    cases hps : pyIsSpace c
    · rfl
    · have hdig := (List.all_eq_true.mp hd) c hc
      rw [space_not_digit hps] at hdig
      cases hdig
  unfold pyInt at h
  rw [stripWs_of_no_space hno] at h
  cases htd : t.data with
  | nil =>
      rw [htd] at h
      simp [parseUDigits, validUDigits] at h
  | cons c cs =>
      have hc : c.isDigit = true := (List.all_eq_true.mp hd) c (htd ▸ List.mem_cons_self c cs)
      rw [htd] at h
      split at h
      · rename_i rest heq
        rw [List.cons.injEq] at heq
        rw [heq.1] at hc
        exact absurd hc (by decide)
      · rename_i rest heq
        rw [List.cons.injEq] at heq
        rw [heq.1] at hc
        exact absurd hc (by decide)
      · cases hpd : parseUDigits (c :: cs) with
        | none =>
            rw [hpd] at h
            cases h
        | some n =>
            rw [hpd] at h
            have hn : (n : Int) = p := by simpa using h
            rw [← hn]
            exact Int.ofNat_nonneg n

/-! ## The claims

One theorem per claim of the specification review, each stated over the
embedded definitions above. -/

/-- Claim C1, counterexample to the claim as stated: with a command present,
the built argument list can still *contain* a control token — the command
string itself is placed, verbatim, as the final token.  Here the command is
the string `/reload` while the `reload` flag (and every other control flag)
is off, and `/reload` is an element of the built list. -/
theorem start_command_token_can_be_control :
    "/reload" ∈ startArgs {} (some "/reload") none {} ∧
    ({} : StartFlags).reload = false := by
  decide

/-- Claim C1 (amended): for every request with a command present, the
argument list built by `start` *apart from its final command token*
contains none of `/reload`, `/terminate`, `/terminate_all`, `/listpids`,
regardless of how the four control flags are set — the `command is None`
gate suppresses all control flags, and no other emitted token can collide
with a control token. -/
theorem start_command_present_suppresses_control (sbx : Sandboxie) (cmd : String)
    (box : Option String) (f : StartFlags) :
    ∀ t ∈ (startArgs sbx (some cmd) box f).dropLast, t ∉ controlTokens := by
  intro t ht
  have hshape : startArgs sbx (some cmd) box f =
      ([ntJoin sbx.install_dir "Start.exe"] ++ baseOptions (box.getD sbx.defaultbox) f)
        ++ [cmd] := rfl
  rw [hshape, List.dropLast_concat] at ht
  rcases List.mem_append.mp ht with h | h
  · rw [List.mem_singleton.mp h]
    exact startExe_not_control sbx.install_dir
  · exact baseOptions_not_control _ f t h

/-- Witness for C1 (amended) at a concrete request. -/
theorem start_command_present_suppresses_control_witness :
    "/silent" ∉ controlTokens :=
  start_command_present_suppresses_control {} "test.exe" none {} "/silent" (by decide)

/-- Claim C2: with command absent and `listpids` set, `start` emits
`/listpids` and the final argument is the non-empty synthesized command
`| more`; and with `listpids` unset, no command is fabricated — the final
argument is the empty string. -/
theorem start_commandless_listpids (sbx : Sandboxie) (box : Option String)
    (f : StartFlags) :
    (f.listpids = true →
      "/listpids" ∈ startArgs sbx none box f ∧
      (startArgs sbx none box f).getLast? = some "| more" ∧ ("| more" : String) ≠ "")
    ∧ (f.listpids = false → (startArgs sbx none box f).getLast? = some "") := by
  have hshape : startArgs sbx none box f =
      ([ntJoin sbx.install_dir "Start.exe"] ++ baseOptions (box.getD sbx.defaultbox) f
        ++ controlOptions f) ++ [if f.listpids then "| more" else ""] := rfl
  constructor
  · intro h
    refine ⟨?_, ?_, by decide⟩
    · rw [hshape]
      apply List.mem_append.mpr
      left
      apply List.mem_append.mpr
      right
      unfold controlOptions
      apply List.mem_append.mpr
      right
      rw [if_pos h]
      exact List.mem_singleton.mpr rfl
    · rw [hshape, List.getLast?_concat, if_pos h]
  · intro h
    rw [hshape, List.getLast?_concat, if_neg (by simp [h])]

/-- Witness for C2 at concrete requests (both flag polarities). -/
theorem start_commandless_listpids_witness :
    "/listpids" ∈ startArgs {} none none { listpids := true } ∧
    (startArgs {} none none { listpids := true }).getLast? = some "| more" ∧
    (startArgs {} none none { listpids := false }).getLast? = some "" :=
  ⟨((start_commandless_listpids {} none { listpids := true }).1 rfl).1,
   ((start_commandless_listpids {} none { listpids := true }).1 rfl).2.1,
   (start_commandless_listpids {} none { listpids := false }).2 rfl⟩

/-- Claim C3: the scoped transaction `_modify_config`.  If the caller's
block raises, the on-disk config is untouched; if it completes normally,
the (possibly mutated) config is written back via `_write_config`. -/
theorem modify_config_transaction (ε : Type) (fs : FS)
    (block : Config → Except ε Config) :
    (∀ (cfg : Config) (e : ε), get_config fs = some cfg →
        block cfg = Except.error e → (modify_config fs block).2 = fs)
    ∧ (∀ (cfg mutated : Config), get_config fs = some cfg →
        block cfg = Except.ok mutated →
        modify_config fs block = (ModifyResult.ok, write_config fs mutated)) := by
  constructor
  · intro cfg e hparse hblock
    unfold modify_config
    rw [hparse]
    show (match block cfg with
          | Except.error e => (ModifyResult.blockError e, fs)
          | Except.ok mutated => (ModifyResult.ok, write_config fs mutated)).2 = fs
    rw [hblock]
  · intro cfg mutated hparse hblock
    unfold modify_config
    rw [hparse]
    show (match block cfg with
          | Except.error e => (ModifyResult.blockError e, fs)
          | Except.ok mutated => (ModifyResult.ok, write_config fs mutated))
        = (ModifyResult.ok, write_config fs mutated)
    rw [hblock]

/-- Witness for C3: a failing block leaves an empty config file unchanged;
an identity block rewrites it. -/
theorem modify_config_transaction_witness :
    (modify_config (⟨[]⟩ : FS)
        (fun _ => (Except.error () : Except Unit Config))).2 = (⟨[]⟩ : FS)
    ∧ modify_config (⟨[]⟩ : FS) (fun c => (Except.ok c : Except Unit Config))
        = (ModifyResult.ok, write_config ⟨[]⟩ []) :=
  ⟨(modify_config_transaction Unit ⟨[]⟩ _).1 [] () rfl rfl,
   (modify_config_transaction Unit ⟨[]⟩ _).2 [] [] rfl rfl⟩

/-- Claim C4: on the raw output `"13\r\n2705\r\n1336\r\n2914"` the pid
parser yields exactly `(13, 2705, 1336, 2914)` in order; and whenever any
whitespace-separated token of the output is non-numeric, consuming the
sequence signals a parse failure instead of skipping the token. -/
theorem running_processes_parse :
    running_processes "13\r\n2705\r\n1336\r\n2914" = some [13, 2705, 1336, 2914]
    ∧ ∀ (output t : String), t ∈ pySplit output → pyInt t = none →
        running_processes output = none := by
  refine ⟨by decide, ?_⟩
  intro output t ht hnone
  unfold running_processes
  exact mapOption_eq_none pyInt ht hnone

/-- Witness for C4 on the spec's malformed example output. -/
theorem running_processes_parse_witness :
    running_processes "13\r\nABC" = none :=
  running_processes_parse.2 "13\r\nABC" "ABC" (by decide) (by decide)

/-- Claim C5: `delete_contents` builds the same launcher argument list for
every `box` argument as for `box=None` — the passed-in box is discarded
(the source calls `start('delete_sandbox_silent', box=None, **kwargs)`) —
and the list always targets the default sandbox. -/
theorem delete_contents_discards_box (sbx : Sandboxie) (b : Option String)
    (f : StartFlags) :
    delete_contents sbx b f = delete_contents sbx none f ∧
    ("/box:" ++ sbx.defaultbox) ∈ delete_contents sbx b f := by
  refine ⟨rfl, ?_⟩
  show ("/box:" ++ sbx.defaultbox) ∈
    ([ntJoin sbx.install_dir "Start.exe"] ++ baseOptions sbx.defaultbox f)
      ++ ["delete_sandbox_silent"]
  apply List.mem_append.mpr
  left
  apply List.mem_append.mpr
  right
  unfold baseOptions
  apply List.mem_append.mpr
  left
  apply List.mem_append.mpr
  left
  apply List.mem_append.mpr
  left
  apply List.mem_append.mpr
  left
  apply List.mem_append.mpr
  left
  exact List.mem_singleton.mpr rfl

/-- Claim C6, counterexample to the claim as stated: the pids produced by
`running_processes` need not be positive — `int()` accepts signed tokens,
so the output `"-5"` parses successfully to the value `-5`. -/
theorem running_processes_yields_negative :
    ¬ (∀ (output : String) (pids : List Int),
        running_processes output = some pids → ∀ p ∈ pids, 0 < p) := by
  intro hall
  exact absurd (hall "-5" [-5] (by decide) (-5) (by decide)) (by decide)

/-- Claim C6 (amended): each whitespace-separated token is parsed with
Python `int` semantics (which also accepts an optional sign); whenever
every token of the output is a plain unsigned digit string — the shape the
launcher actually emits — every produced pid is a non-negative integer. -/
theorem running_processes_digit_tokens_nonneg :
    ∀ (output : String) (pids : List Int), running_processes output = some pids →
      (∀ t ∈ pySplit output, t.data.all Char.isDigit = true) →
      ∀ p ∈ pids, 0 ≤ p := by
  intro output pids h hdig p hp
  obtain ⟨t, ht, hft⟩ := mapOption_mem pyInt h p hp
  exact pyInt_digits_nonneg (hdig t ht) hft

/-- Witness for C6 (amended) on a concrete all-digit output. -/
theorem running_processes_digit_tokens_nonneg_witness :
    running_processes "13 7" = some [13, 7] ∧ (0 : Int) ≤ 13 :=
  ⟨by decide,
   running_processes_digit_tokens_nonneg "13 7" [13, 7] (by decide) (by decide)
     13 (by decide)⟩

/-- Claim C7: `start('test.exe')` with no overrides builds exactly the
token list `[launcher_executable_path, /box:<defaultbox>, /silent,
/nosbiectrl, 'test.exe']`, in the canonical order of steps 1-9. -/
theorem start_default_flags_canonical (d i : String) :
    startArgs ⟨d, i⟩ (some "test.exe") none {} =
      [ntJoin i "Start.exe", "/box:" ++ d, "/silent", "/nosbiectrl", "test.exe"] :=
  rfl

/-- Folding fresh options into an emptied section is the identity on
already-canonical option lists (distinct, lower-case keys). -/
theorem normOpts_eq_self {options : List (String × String)}
    (hlow : ∀ q ∈ options, pyLower q.1 = q.1) (hnd : (keysOf options).Nodup) :
    normOpts options = options := by
  suffices haux : ∀ (opts acc : IniSection), (keysOf (acc ++ opts)).Nodup →
      (∀ q ∈ opts, pyLower q.1 = q.1) →
      opts.foldl (fun acc q => upsert acc (pyLower q.1) q.2) acc = acc ++ opts by
    have h0 := haux options [] (by simpa [keysOf] using hnd) hlow
    simpa [normOpts] using h0
  intro opts
  induction opts with
  | nil =>
      intro acc _ _
      simp
  | cons q opts ih =>
      intro acc hnd1 hlow1
      obtain ⟨k, v⟩ := q
      rw [List.foldl_cons]
      have hkl : pyLower k = k := hlow1 (k, v) (List.mem_cons_self _ _)
      have hk : k ∉ keysOf acc := by
        rw [keysOf, List.map_append] at hnd1
        have hd := (List.nodup_append.mp hnd1).2.2
        intro hmem
        exact hd hmem (by simp [keysOf])
      rw [hkl, upsert_not_mem v hk]
      rw [ih (acc ++ [(k, v)]) (by simpa [keysOf, List.append_assoc] using hnd1)
        (fun q hq => hlow1 q (List.mem_cons_of_mem _ hq))]
      simp

/-- Claim C8: `create_sandbox(name, options)` followed by a read yields a
config whose section `name` holds exactly the given options — verbatim
when the option keys are already canonical (distinct and lower-case), and
in general up to the config layer's lower-casing `optionxform`, under
which reads of the original keys succeed — while every pre-existing
profile with a different name round-trips unchanged, key-for-key and
value-for-value. -/
theorem create_sandbox_frame (fs : FS) (cfg : Config) (box p : String)
    (options : List (String × String))
    (hparse : get_config fs = some cfg) (hwf : ConfigWF cfg) (hp : p ≠ box) :
    ∃ cfg', get_config (create_sandbox fs box options).2 = some cfg'
      ∧ lookupSection cfg' box = some (normOpts options)
      ∧ ((∀ q ∈ options, pyLower q.1 = q.1) → (keysOf options).Nodup →
          lookupSection cfg' box = some options)
      ∧ lookupSection cfg' p = lookupSection cfg p := by
  refine ⟨setSection cfg box options, ?_, lookupSection_setSection_self cfg box options,
    fun hlow hnd => by
      rw [lookupSection_setSection_self cfg box options, normOpts_eq_self hlow hnd],
    lookupSection_setSection_other cfg options hp⟩
  unfold create_sandbox modify_config
  rw [hparse]
  show get_config (write_config fs (setSection cfg box options)) = _
  unfold get_config write_config
  exact parse_writeConfig _ (configWF_setSection hwf box options)

/-- Witness for C8: creating `foo` with `Enabled = yes` next to a
pre-existing profile `a`. -/
theorem create_sandbox_frame_witness :
    ∃ cfg', get_config (create_sandbox ⟨[Line.header "a"]⟩ "foo"
        [("Enabled", "yes")]).2 = some cfg'
      ∧ lookupSection cfg' "foo" = some (normOpts [("Enabled", "yes")])
      ∧ ((∀ q ∈ [("Enabled", "yes")], pyLower q.1 = q.1) →
          (keysOf [("Enabled", "yes")]).Nodup →
          lookupSection cfg' "foo" = some [("Enabled", "yes")])
      ∧ lookupSection cfg' "a" = lookupSection [("a", [])] "a" :=
  create_sandbox_frame ⟨[Line.header "a"]⟩ [("a", [])] "foo" "a" [("Enabled", "yes")]
    (by decide) (by decide) (by decide)

/-- Claim C9: `destroy_sandbox(name)` completes without error, removes the
profile named `name`, leaves every other profile intact, and — when no
profile named `name` exists — leaves the config exactly unchanged
(idempotent destroy: `remove_section` of an absent section is a no-op). -/
theorem destroy_sandbox_frame (fs : FS) (cfg : Config) (box p : String)
    (hparse : get_config fs = some cfg) (hwf : ConfigWF cfg) (hp : p ≠ box) :
    (destroy_sandbox fs box).1 = ModifyResult.ok
    ∧ ∃ cfg', get_config (destroy_sandbox fs box).2 = some cfg'
      ∧ lookupSection cfg' box = none
      ∧ lookupSection cfg' p = lookupSection cfg p
      ∧ (hasSection cfg box = false → cfg' = cfg) := by
  have hfst : (destroy_sandbox fs box).1 = ModifyResult.ok := by
    unfold destroy_sandbox modify_config
    rw [hparse]
  refine ⟨hfst, (remove_section cfg box).1, ?_, lookup_remove_self cfg box,
    lookup_remove_other cfg hp, fun habs => remove_not_mem habs⟩
  unfold destroy_sandbox modify_config
  rw [hparse]
  show get_config (write_config fs (remove_section cfg box).1) = _
  unfold get_config write_config
  exact parse_writeConfig _ (configWF_remove hwf box)

/-- Witness for C9 on a config holding `sandbox1` and `sandbox2`. -/
theorem destroy_sandbox_frame_witness :
    (destroy_sandbox ⟨[Line.header "sandbox1", Line.header "sandbox2"]⟩
        "sandbox1").1 = ModifyResult.ok
    ∧ ∃ cfg', get_config (destroy_sandbox
          ⟨[Line.header "sandbox1", Line.header "sandbox2"]⟩ "sandbox1").2 = some cfg'
      ∧ lookupSection cfg' "sandbox1" = none
      ∧ lookupSection cfg' "sandbox2"
          = lookupSection [("sandbox1", []), ("sandbox2", [])] "sandbox2"
      ∧ (hasSection [("sandbox1", []), ("sandbox2", [])] "sandbox1" = false →
          cfg' = [("sandbox1", []), ("sandbox2", [])]) :=
  destroy_sandbox_frame ⟨[Line.header "sandbox1", Line.header "sandbox2"]⟩
    [("sandbox1", []), ("sandbox2", [])] "sandbox1" "sandbox2"
    (by decide) (by decide) (by decide)

/-- Claim C10: a present-but-empty command suppresses all four control
flags exactly as a non-empty command does (the gate tests `command is
None`, not emptiness), and the built list ends with the empty-string
command token. -/
theorem start_empty_command_suppresses_control (sbx : Sandboxie)
    (box : Option String) (f : StartFlags) :
    (startArgs sbx (some "") box f).getLast? = some "" ∧
    ∀ t ∈ startArgs sbx (some "") box f, t ∉ controlTokens := by
  have hshape : startArgs sbx (some "") box f =
      ([ntJoin sbx.install_dir "Start.exe"] ++ baseOptions (box.getD sbx.defaultbox) f)
        ++ [""] := rfl
  constructor
  · rw [hshape, List.getLast?_concat]
  · intro t ht
    rw [hshape] at ht
    rcases List.mem_append.mp ht with h | h
    · rcases List.mem_append.mp h with h1 | h1
      · rw [List.mem_singleton.mp h1]
        exact startExe_not_control sbx.install_dir
      · exact baseOptions_not_control _ f t h1
    · rw [List.mem_singleton.mp h]
      decide

/-- Witness for C10 at a concrete request with all control flags set. -/
theorem start_empty_command_suppresses_control_witness :
    (startArgs {} (some "") none
        { reload := true, terminate := true, terminate_all := true,
          listpids := true }).getLast? = some ""
    ∧ "" ∉ controlTokens :=
  ⟨(start_empty_command_suppresses_control {} none
      { reload := true, terminate := true, terminate_all := true,
        listpids := true }).1,
   (start_empty_command_suppresses_control {} none
      { reload := true, terminate := true, terminate_all := true,
        listpids := true }).2 "" (by decide)⟩

end SandboxiePy
